import Mathlib

/-!
Verification development for `sunpy/synthetic_image.py`.

The Python module builds "realistic" synthetic telescope images from
idealized simulation output: PSF convolution, detector rebinning, sky-noise
injection, a Petrosian-radius size estimate, field-of-view normalization
and background compositing.  The numeric kernels are embedded below over
exact rationals (`ℚ`) — 2D numpy float arrays become `Mat`, rank-generic
numpy calls are specialized to the 2D arrays this module passes them —
and reals where the source takes a square root.
-/

/-- A 2D numpy array of floats: `rows × cols` grid of rationals.  Entries
outside the bounds are irrelevant to every theorem below. -/
structure Mat where
  rows : Nat
  cols : Nat
  entry : Nat → Nat → ℚ

/-- Models `np.sum(image)`: total flux of the image. -/
def Mat.total (a : Mat) : ℚ :=
  ∑ i ∈ Finset.range a.rows, ∑ j ∈ Finset.range a.cols, a.entry i j

/-- The module constant `n_pixels_galaxy_zoo = 424`. -/
def nPixelsGalaxyZoo : Nat := 424

/-- Linear interpolation of the samples `y 0, …, y (n-1)` placed at the
integer coordinates `0, …, n-1`, evaluated at coordinate `x`; coordinates
outside the support produce the fill value `0`.  Models
`scipy.interpolate.interp1d(np.arange(n), y, kind=linear,
bounds_error=False, fill_value=0.0)` (the source uses it with `n ≥ 2`). -/
def interpLin (n : Nat) (y : Nat → ℚ) (x : ℚ) : ℚ :=
  if x < 0 ∨ ((n : ℚ) - 1) < x then 0
  else
    y (min (Int.toNat ⌊x⌋) (n - 2)) +
      (y (min (Int.toNat ⌊x⌋) (n - 2) + 1) - y (min (Int.toNat ⌊x⌋) (n - 2))) *
        (x - ((min (Int.toNat ⌊x⌋) (n - 2) : ℕ) : ℚ))

/-- The body of `congrid(a, (p, q), centre=False, minusone=False)` on a 2D
array: with `m1 = 0` and `ofs = 0` the new index `i` on an axis of old
extent `old` and new extent `new` is mapped to the old coordinate
`(old / new) * i`, and the array is linearly interpolated one axis at a
time (last axis first, then the leading axis after the transpose dance). -/
def congridAt (a : Mat) (p q : Nat) : Mat :=
  { rows := p
    cols := q
    entry := fun i j =>
      interpLin a.rows
        (fun r => interpLin a.cols (fun c => a.entry r c) ((a.cols : ℚ) / (q : ℚ) * (j : ℚ)))
        ((a.rows : ℚ) / (p : ℚ) * (i : ℚ)) }

/-- The exceptions the module could conceivably raise from the resampler. -/
inductive PyExc where
  | dimensionMismatch
deriving DecidableEq

/-- The function `congrid(a, newdims)` as actually written: the function first checks
`len(newdims) != ndims` (here `ndims = 2`, every call site passes a 2D
array) and in that case prints a diagnostic and executes `return None` —
a normal return of the null value, modelled `Except.ok Option.none`; it
never raises.  Otherwise it returns the interpolated array. -/
def congrid (a : Mat) (newdims : List Nat) : Except PyExc (Option Mat) :=
  match newdims with
  | [p, q] => Except.ok (Option.some (congridAt a p q))
  | _ => Except.ok Option.none

/-- Python `int(q)`: truncation toward zero. -/
def pyInt (q : ℚ) : ℤ :=
  if 0 ≤ q then ⌊q⌋ else -⌊-q⌋

/-- The radicand of the default sky sigma of `synthetic_image.add_noise`
when `sky_sig` is not supplied:
`sky_sig = np.sqrt((total_flux / sn_limit)**2 / area**2)` with
`total_flux = np.sum(rebinned_image.image)` and
`area = 1.0 * n_pixels * n_pixels`; the sigma itself is
`Real.sqrt` of this value (square roots live at the theorem level so that
the definitions stay executable rationals). -/
def skySigSq (img : Mat) (snLimit : ℚ) : ℚ :=
  (img.total / snLimit) ^ 2 / ((img.rows : ℚ) * (img.rows : ℚ)) ^ 2

/-- The sky-sigma radicand as the claim words it: `pixel_count` read as the
per-axis pixel count `N` of the `N×N` grid (refinement comparator, written
from the spec sentence, not from the source). -/
def skySigClaimedSq (img : Mat) (snLimit : ℚ) : ℚ :=
  (img.total / snLimit) ^ 2 / ((img.rows : ℚ)) ^ 2

/-- Models `synthetic_image.add_noise` acting on the rebinned image, after the
sky sigma `σ` has been resolved (it is either the explicit `sky_sig`
argument or the float `np.sqrt((total/sn)**2/area**2)` — a float, so an
exact rational here).  `rng` is the ambient numpy global random stream at
call time, read row-major: `np.random.randn(n, n)[i, j] = rng (i*n + j)`;
the function never calls `np.random.seed` — the `seed` argument of the
surrounding constructor is in scope but unread here (it is first consumed
later, inside `add_background`), which is why it is a parameter the body
does not use.  With `add_noise` false the rebinned image passes through. -/
def addNoise (rng : Nat → ℚ) (seed : ℤ) (addNoiseFlag : Bool)
    (img : Mat) (σ : ℚ) : Mat :=
  if addNoiseFlag then
    { rows := img.rows
      cols := img.rows
      entry := fun i j => img.entry i j + σ * rng (i * img.rows + j) }
  else img

/-- The grid `RadialInfo.RadiusGrid = np.linspace(0.0001, 1.5*N, num=400)`:
the `i`-th of the 400 grid radii (`0 ≤ i ≤ 399`), endpoints included. -/
def radiusGrid (N : Nat) (i : Nat) : ℚ :=
  1/10000 + ((3/2) * (N : ℚ) - 1/10000) * (i : ℚ) / 399

/-- The coordinates `RadialInfo.xgrid = np.linspace(-N/2 + 0.5, N/2 - 0.5, num=N)`:
the pixel-centre coordinate of index `t`, which is `t - (N-1)/2`. -/
def xgridVal (N : Nat) (t : Nat) : ℚ :=
  (t : ℚ) - ((N : ℚ) - 1) / 2

/-- Squared distance of pixel `(j, k)` (row `j`, column `k`) from the image
centre: `xsquare[j,k] = xgrid[k]` and `ysquare[j,k] = xgrid[j]`, so the
source's `(xsquare**2 + ysquare**2)**0.5` squared. -/
def distSq (N : Nat) (j k : Nat) : ℚ :=
  xgridVal N k ^ 2 + xgridVal N j ^ 2

/-- All pixel index pairs of an `N×N` image. -/
def pixPairs (N : Nat) : Finset (Nat × Nat) :=
  Finset.range N ×ˢ Finset.range N

/-- The set `RadialInfo.annulus_indices` for radius `r`: pixels with
`sqrt(distSq) < 1.25*r` and `sqrt(distSq) > 0.8*r`; stated with both sides
squared, which is equivalent since the grid radii and the distances are
nonnegative. -/
def annSet (N : Nat) (r : ℚ) : Finset (Nat × Nat) :=
  (pixPairs N).filter (fun p => distSq N p.1 p.2 < ((5/4) * r) ^ 2 ∧
    ((4/5) * r) ^ 2 < distSq N p.1 p.2)

/-- The set `RadialInfo.interior_indices` for radius `r`: pixels with
`sqrt(distSq) < r` (squared form). -/
def intSet (N : Nat) (r : ℚ) : Finset (Nat × Nat) :=
  (pixPairs N).filter (fun p => distSq N p.1 p.2 < r ^ 2)

/-- The `PetroRatio` array of `synthetic_image.calc_r_petro` at grid index
`i`: initialized by `np.ones`, overwritten with
`(sum annulus flux / annulus count) / (sum interior flux / interior count)`
whenever `annulus_sums[i] * interior_sums[i] != 0`. -/
def petroVals (img : Mat) (i : Nat) : ℚ :=
  if (((annSet img.rows (radiusGrid img.rows i)).card : ℚ) *
      ((intSet img.rows (radiusGrid img.rows i)).card : ℚ)) ≠ 0 then
    ((∑ p ∈ annSet img.rows (radiusGrid img.rows i), img.entry p.1 p.2) /
        ((annSet img.rows (radiusGrid img.rows i)).card : ℚ)) /
      ((∑ p ∈ intSet img.rows (radiusGrid img.rows i), img.entry p.1 p.2) /
        ((intSet img.rows (radiusGrid img.rows i)).card : ℚ))
  else 1

/-- Models `np.argmin` over the values `f 0, …, f (n-1)`: the index of the first
occurrence of the minimum (ties break to the smallest index). -/
def argminIdx (f : Nat → ℚ) : Nat → Nat
  | 0 => 0
  | 1 => 0
  | n + 2 =>
      if f (n + 1) < f (argminIdx f (n + 1)) then n + 1 else argminIdx f (n + 1)

/-- The grid index selected by `calc_r_petro`:
`Pind = np.argmin(np.absolute(np.flipud(PetroRatio) - 0.2))` scans the
ratio array flipped (largest radius first), and the radius taken is
`np.flipud(RadiusGrid)[Pind]`, i.e. grid index `399 - Pind`. -/
def calcRPetroSelIdx (img : Mat) : Nat :=
  399 - argminIdx (fun i => |petroVals img (399 - i) - 1/5|) 400

/-- The Petrosian radius in pixels computed by `calc_r_petro` when no
external radius is supplied and resizing is enabled. -/
def calcRPetroPixels (img : Mat) : ℚ :=
  radiusGrid img.rows (calcRPetroSelIdx img)

/-- The output `r_petro_kpc = PetroRadius * pixel_in_kpc`. -/
def calcRPetroKpc (img : Mat) (pixelInKpc : ℚ) : ℚ :=
  calcRPetroPixels img * pixelInKpc

/-- The resampling-and-sigma bookkeeping of
`synthetic_image.add_gaussian_psf` before the gaussian filter is applied:
`current_psf_sigma_pixels = psf_fwhm_arcsec * (1.0/2.355) / pixel_in_arcsec`
(`2.355 = 471/200` exactly); if it is below 8 the image is regridded by
`congrid` to `n_pixel_new = np.floor(N * 8 / current)` per axis, capped at
2500 with `target = 2500 * current / N`, and the sigma actually passed to
`gaussian_filter` is `target * ((N * target / current) / n_pixel_new)`.
Returns the working image (the array the filter runs over) and that sigma;
the filter itself (a pure blur at the returned sigma) is not needed by any
claim.  When `add_psf` is false the image passes through and no sigma is
used (returned as 0). -/
def addGaussianPsfPre (addPsf : Bool) (img : Mat) (psfFwhmArcsec pixelInArcsec : ℚ) :
    Mat × ℚ :=
  if addPsf then
    if psfFwhmArcsec * (1 / (471/200)) / pixelInArcsec < 8 then
      if 2500 < ⌊(img.rows : ℚ) * 8 / (psfFwhmArcsec * (1 / (471/200)) / pixelInArcsec)⌋ then
        (congridAt img 2500 2500,
          (2500 * (psfFwhmArcsec * (1 / (471/200)) / pixelInArcsec) / (img.rows : ℚ)) *
            (((img.rows : ℚ) *
                (2500 * (psfFwhmArcsec * (1 / (471/200)) / pixelInArcsec) / (img.rows : ℚ)) /
                  (psfFwhmArcsec * (1 / (471/200)) / pixelInArcsec)) / 2500))
      else
        (congridAt img
            (⌊(img.rows : ℚ) * 8 / (psfFwhmArcsec * (1 / (471/200)) / pixelInArcsec)⌋).toNat
            (⌊(img.rows : ℚ) * 8 / (psfFwhmArcsec * (1 / (471/200)) / pixelInArcsec)⌋).toNat,
          8 * (((img.rows : ℚ) * 8 / (psfFwhmArcsec * (1 / (471/200)) / pixelInArcsec)) /
            ((⌊(img.rows : ℚ) * 8 / (psfFwhmArcsec * (1 / (471/200)) / pixelInArcsec)⌋ : ℤ) : ℚ)))
    else (img, psfFwhmArcsec * (1 / (471/200)) / pixelInArcsec)
  else (img, 0)

/-- Models `synthetic_image.resize_image_from_rp`: rescale so that one pixel is
`0.008 * r_petro_kpc` kpc, then centre onto the fixed
`n_pixels_galaxy_zoo = 424` canvas.  `Ntotal_new =
int((pixel_in_kpc / (0.008*r_petro_kpc)) * n_pixels)`; with
`diff = 424 - Ntotal_new`, a nonnegative `diff` zero-pads with leading
offset `int(np.floor(diff/2))` (`tmp_image[lp:up, lp:up] = rebinned`),
and a negative `diff` crops `rebinned[lp:up, lp:up]` with
`lp = int(np.floor(-diff/2))`.  With `resize_rp` false the noisy image
passes through. -/
def resizeImageFromRp (resizeRp : Bool) (img : Mat) (pixelInKpc rPetroKpc : ℚ) : Mat :=
  if resizeRp then
    let nTotalNew : Nat := (pyInt (pixelInKpc / ((1/125) * rPetroKpc) * (img.rows : ℚ))).toNat
    let rebinned : Mat := congridAt img nTotalNew nTotalNew
    let diff : ℤ := (424 : ℤ) - (nTotalNew : ℤ)
    if 0 ≤ diff then
      { rows := 424
        cols := 424
        entry := fun i j =>
          if (⌊(diff : ℚ) / 2⌋).toNat ≤ i ∧ i < (⌊(diff : ℚ) / 2⌋).toNat + nTotalNew ∧
             (⌊(diff : ℚ) / 2⌋).toNat ≤ j ∧ j < (⌊(diff : ℚ) / 2⌋).toNat + nTotalNew then
            rebinned.entry (i - (⌊(diff : ℚ) / 2⌋).toNat) (j - (⌊(diff : ℚ) / 2⌋).toNat)
          else 0 }
    else
      { rows := 424
        cols := 424
        entry := fun i j =>
          rebinned.entry ((⌊((-diff : ℤ) : ℚ) / 2⌋).toNat + i)
            ((⌊((-diff : ℤ) : ℚ) / 2⌋).toNat + j) }
  else img

/-- The path `bg_base = './data/'` (the second assignment wins in the source). -/
def bgBase : String := "./data/"

/-- The module-level `backgrounds` table: for each band index, the list of
registered background tile paths (empty = no tile for that band). -/
def backgrounds : List (List String) :=
  [ [], [],
    [bgBase ++ "/SDSS_backgrounds/J113959.99+300000.0-u.fits"],
    [bgBase ++ "/SDSS_backgrounds/J113959.99+300000.0-g.fits"],
    [bgBase ++ "/SDSS_backgrounds/J113959.99+300000.0-r.fits"],
    [bgBase ++ "/SDSS_backgrounds/J113959.99+300000.0-i.fits"],
    [bgBase ++ "/SDSS_backgrounds/J113959.99+300000.0-z.fits"],
    [], [], [], [],
    [], [], [], [], [], [], [], [], [], [],
    [bgBase ++ "/HST_backgrounds/xdf_noise_F775W_30mas.fits"],
    [bgBase ++ "/HST_backgrounds/GOODSN_F606W.fits"],
    [bgBase ++ "/HST_backgrounds/xdf_noise_F775W_30mas.fits"],
    [bgBase ++ "/HST_backgrounds/xdf_noise_F775W_30mas.fits"],
    [bgBase ++ "/HST_backgrounds/GOODSN_F125W.fits"],
    [bgBase ++ "/HST_backgrounds/GOODSN_F125W.fits"],
    [bgBase ++ "/HST_backgrounds/GOODSN_F160W.fits"],
    [], [], [], [], [], [], [], [] ]

/-- Models `synthetic_image.add_background`: if the `add_background` flag is set
and `len(backgrounds[band]) > 0`, the registered-tile branch (file IO,
seeded random cropping, unit conversion, the retry loop, the clamping and
the `bg_failed` test) runs — abstracted here as `composite`, mapping the
input plane and seed to (new image, bg_failed, returned seed).  Otherwise
`new_image = self.rp_image.image` and `bg_failed` keeps the `False` set in
the constructor.  Finally `rebin_gz` optionally regrids to
`n_target_pixels`. -/
def addBackgroundStage (composite : Mat → ℤ → Mat × Bool × ℤ) (band : Nat)
    (seed : ℤ) (addBg : Bool) (rebinGz : Bool) (nTargetPixels : Nat)
    (rpImage : Mat) : Mat × Bool × ℤ :=
  let res : Mat × Bool × ℤ :=
    if addBg ∧ 0 < (backgrounds.getD band []).length then composite rpImage seed
    else (rpImage, false, seed)
  if rebinGz then (congridAt res.1 nTargetPixels nTargetPixels, res.2.1, res.2.2)
  else res

/-- The metadata of a `single_image` plane as set by `init_image`. -/
structure Plane where
  nPixels : Nat
  pixelInKpc : ℚ
  pixelInArcsec : ℚ
  cameraPixelInArcsec : ℚ

/-- Models `single_image.init_image(image, parent, fov, comoving_to_phys_fov)`:
`n_pixels = image.shape[0]` (here `rows`); `pixel_in_kpc` comes from the
explicit `fov` when given (`fov / n_pixels`), else from the header
`linear_fov` (divided by `redshift+1` in the comoving variant);
`pixel_in_arcsec = pixel_in_kpc / kpc_per_arcsec`;
`camera_pixel_in_arcsec = pixel_in_kpc / cameradist * 2.06e5`. -/
def initImage (rows : Nat) (fov : Option ℚ) (comovingToPhysFov : Bool)
    (linearFov redshift kpcPerArcsec cameradist : ℚ) : Plane :=
  let pkpc : ℚ :=
    match fov with
    | Option.none =>
        if comovingToPhysFov then linearFov / (rows : ℚ) / (redshift + 1)
        else linearFov / (rows : ℚ)
    | Option.some f => f / (rows : ℚ)
  { nPixels := rows
    pixelInKpc := pkpc
    pixelInArcsec := pkpc / kpcPerArcsec
    cameraPixelInArcsec := pkpc / cameradist * 206000 }

/-! ### Helper lemmas -/

lemma radiusGrid_le_radiusGrid (N : Nat) (hN : 1 ≤ N) {i j : Nat} (hij : i ≤ j) :
    radiusGrid N i ≤ radiusGrid N j := by
  have hcoef : (0:ℚ) ≤ (3/2) * (N : ℚ) - 1/10000 := by
    have h1 : (1:ℚ) ≤ (N : ℚ) := by exact_mod_cast hN
    linarith
  have hmul : ((3/2) * (N : ℚ) - 1/10000) * (i : ℚ) ≤ ((3/2) * (N : ℚ) - 1/10000) * (j : ℚ) :=
    mul_le_mul_of_nonneg_left (by exact_mod_cast hij) hcoef
  have h2 := (div_le_div_iff_of_pos_right (by norm_num : (0:ℚ) < 399)).mpr hmul
  unfold radiusGrid
  linarith

lemma radiusGrid_lt_radiusGrid (N : Nat) (hN : 1 ≤ N) {i j : Nat} (hij : i < j) :
    radiusGrid N i < radiusGrid N j := by
  have hcoef : (0:ℚ) < (3/2) * (N : ℚ) - 1/10000 := by
    have h1 : (1:ℚ) ≤ (N : ℚ) := by exact_mod_cast hN
    linarith
  have hmul : ((3/2) * (N : ℚ) - 1/10000) * (i : ℚ) < ((3/2) * (N : ℚ) - 1/10000) * (j : ℚ) :=
    mul_lt_mul_of_pos_left (by exact_mod_cast hij) hcoef
  have h2 := (div_lt_div_iff_of_pos_right (by norm_num : (0:ℚ) < 399)).mpr hmul
  unfold radiusGrid
  linarith

lemma argminIdx_lt (f : Nat → ℚ) : ∀ n : Nat, argminIdx f (n + 1) < n + 1 := by
  intro n
  induction n with
  | zero => simp [argminIdx]
  | succ m ih =>
      rw [argminIdx]
      split
      · omega
      · omega

lemma argminIdx_min (f : Nat → ℚ) :
    ∀ n : Nat, ∀ k : Nat, k < n + 1 → f (argminIdx f (n + 1)) ≤ f k := by
  intro n
  induction n with
  | zero =>
      intro k hk
      have hk0 : k = 0 := by omega
      subst hk0
      simp [argminIdx]
  | succ m ih =>
      intro k hk
      rw [argminIdx]
      split
      · rename_i hlt
        rcases Nat.lt_succ_iff_lt_or_eq.mp hk with h | h
        · exact le_of_lt (lt_of_lt_of_le hlt (ih k h))
        · subst h
          exact le_refl _
      · rename_i hnlt
        rcases Nat.lt_succ_iff_lt_or_eq.mp hk with h | h
        · exact ih k h
        · subst h
          exact le_of_not_lt hnlt

lemma argminIdx_first (f : Nat → ℚ) :
    ∀ n : Nat, ∀ k : Nat, k < argminIdx f (n + 1) → f (argminIdx f (n + 1)) < f k := by
  intro n
  induction n with
  | zero =>
      intro k hk
      simp [argminIdx] at hk
  | succ m ih =>
      intro k hk
      rw [argminIdx] at hk ⊢
      split
      · rename_i hlt
        rw [if_pos hlt] at hk
        exact lt_of_lt_of_le hlt (argminIdx_min f m k (by omega))
      · rename_i hnlt
        rw [if_neg hnlt] at hk
        exact ih k hk

lemma interpLin_nat (n : Nat) (y : Nat → ℚ) (j : Nat) (hj : j < n) :
    interpLin n y (j : ℚ) = y j := by
  have hb : ¬(((j : ℚ) < 0) ∨ ((n : ℚ) - 1) < (j : ℚ)) := by
    push_neg
    constructor
    · exact Nat.cast_nonneg j
    · have : ((j : ℚ) + 1) ≤ (n : ℚ) := by exact_mod_cast hj
      linarith
  rw [interpLin, if_neg hb, Int.floor_natCast]
  rcases le_or_lt (j + 2) n with h | h
  · have hmin : min (Int.toNat (j : ℤ)) (n - 2) = j := by omega
    rw [hmin]
    ring
  · have hn : n = j + 1 := by omega
    subst hn
    rcases Nat.eq_zero_or_pos j with h0 | hpos
    · subst h0
      have hmin : min (Int.toNat ((0 : ℕ) : ℤ)) (0 + 1 - 2) = 0 := by omega
      rw [hmin]
      push_cast
      ring
    · have hmin : min (Int.toNat (j : ℤ)) (j + 1 - 2) = j - 1 := by omega
      rw [hmin]
      have hj1 : j - 1 + 1 = j := by omega
      rw [hj1]
      have hcast : ((j - 1 : ℕ) : ℚ) = (j : ℚ) - 1 := by
        push_cast [hpos]
        ring
      rw [hcast]
      ring

lemma floorHalf_toNat (d : ℤ) (hd : 0 ≤ d) :
    (⌊(d : ℚ) / 2⌋).toNat = d.toNat / 2 := by
  have h2 : ⌊(d : ℚ) / 2⌋ = d / 2 := by
    rw [Int.floor_eq_iff]
    constructor
    · have h := Int.ediv_mul_le d (by norm_num : (2:ℤ) ≠ 0)
      have hle : (d / 2) * 2 ≤ d := Int.ediv_mul_le d (by norm_num)
      have : ((d / 2 : ℤ) : ℚ) * 2 ≤ (d : ℚ) := by exact_mod_cast hle
      linarith
    · have hlt : d < (d / 2 + 1) * 2 := by omega
      have : (d : ℚ) < ((d / 2 + 1 : ℤ) : ℚ) * 2 := by exact_mod_cast hlt
      push_cast at this ⊢
      linarith
  rw [h2]
  omega

/-! ### Claim theorems -/

/-- C10: every plane created via `init_image` keeps its angular and
physical pixel scales mutually consistent: `pixel_in_arcsec` equals
`pixel_in_kpc / kpc_per_arcsec`, and when an explicit field of view is
given, `pixel_in_kpc = fov / n_pixels`. -/
theorem init_image_scale_consistency (rows : Nat) (fov : Option ℚ) (cm : Bool)
    (lf z k cd f : ℚ) :
    (initImage rows fov cm lf z k cd).pixelInArcsec
        = (initImage rows fov cm lf z k cd).pixelInKpc / k
    ∧ (initImage rows (Option.some f) cm lf z k cd).pixelInKpc = f / (rows : ℚ) := by
  exact ⟨rfl, rfl⟩

/-- C8: for a band with no registered background tile (and `rebin_gz` at
its default `False`), `add_background` passes the image through unchanged:
the output array is the input array, `bg_failed` stays `False`, and the
seed is returned untouched. -/
theorem add_background_no_tile_passthrough (composite : Mat → ℤ → Mat × Bool × ℤ)
    (band : Nat) (seed : ℤ) (addBg : Bool) (nTargetPixels : Nat) (rpImage : Mat)
    (hband : band < backgrounds.length)
    (hempty : backgrounds.getD band [] = []) :
    addBackgroundStage composite band seed addBg false nTargetPixels rpImage
      = (rpImage, false, seed) := by
  simp only [addBackgroundStage, hempty]
  simp

/-- C8 witness: band 0 has no registered tile and the stage is the
identity on a concrete plane. -/
theorem add_background_no_tile_passthrough_witness :
    addBackgroundStage (fun m s => (m, true, s)) 0 7 true false 424
        (Mat.mk 1 1 (fun _ _ => 3))
      = (Mat.mk 1 1 (fun _ _ => 3), false, 7) :=
  add_background_no_tile_passthrough (fun m s => (m, true, s)) 0 7 true 424
    (Mat.mk 1 1 (fun _ _ => 3)) (by norm_num [backgrounds]) rfl

/-- C2 counterexample: calling the resampler on a 2D array with a
rank-1 target tuple does not raise `DimensionMismatch`; it returns
normally, with the value `None`. -/
theorem congrid_rank_mismatch_no_raise :
    congrid (Mat.mk 2 2 (fun _ _ => 5)) [3] = Except.ok Option.none
    ∧ congrid (Mat.mk 2 2 (fun _ _ => 5)) [3]
        ≠ Except.error PyExc.dimensionMismatch := by
  constructor
  · rfl
  · intro h
    simp [congrid] at h

/-- C2 (amended): for every target-dimension tuple whose length differs
from the array's rank, `congrid` prints a diagnostic and returns `None`
(a normal return, no exception). -/
theorem congrid_rank_mismatch_returns_none (a : Mat) (newdims : List Nat)
    (h : newdims.length ≠ 2) :
    congrid a newdims = Except.ok Option.none := by
  match newdims with
  | [] => rfl
  | [_] => rfl
  | [_, _] => exact absurd rfl h
  | _ :: _ :: _ :: _ => rfl

/-- C2 witness: a rank-3 target tuple on a concrete array returns `None`. -/
theorem congrid_rank_mismatch_returns_none_witness :
    congrid (Mat.mk 1 1 (fun _ _ => 5)) [2, 3, 4] = Except.ok Option.none :=
  congrid_rank_mismatch_returns_none (Mat.mk 1 1 (fun _ _ => 5)) [2, 3, 4]
    (by norm_num)

/-- C1 counterexample: two runs of `add_noise` with the same seed, the same
flags, the same input plane and the same sky sigma, but different ambient
numpy RNG states, produce different output arrays — the noise draw is not
a function of the seed and the input, because `add_noise` never seeds the
generator. -/
theorem add_noise_same_seed_differs :
    addNoise (fun _ => 0) 12345 true (Mat.mk 1 1 (fun _ _ => 0)) 1
      ≠ addNoise (fun _ => 1) 12345 true (Mat.mk 1 1 (fun _ _ => 0)) 1 := by
  intro h
  have h0 := congrArg (fun m => m.entry 0 0) h
  simp [addNoise] at h0

/-- C1 (amended): the noise draw is a deterministic function of the
ambient RNG stream and the input alone; the seed parameter is never read
by `add_noise` (it is first consumed later, in `add_background`), so runs
with the same RNG state and input coincide for any two seeds. -/
theorem add_noise_seed_irrelevant (rng : Nat → ℚ) (s1 s2 : ℤ) (flag : Bool)
    (img : Mat) (σ : ℚ) :
    addNoise rng s1 flag img σ = addNoise rng s2 flag img σ := rfl

/-- C4 counterexample: for a 4-pixel image the radius grid reaches 6
pixels, beyond the claimed maximum of `0.75 · N = 3`. -/
theorem radius_grid_max_not_half_width :
    radiusGrid 4 399 = 6 ∧ ¬ radiusGrid 4 399 ≤ (3/4) * 4 := by
  constructor
  · norm_num [radiusGrid]
  · norm_num [radiusGrid]

/-- C4 (amended): RadiusGrid is 400 radii linearly spaced from 0.0001 up
to `1.5 · N` — 1.5 times the full image width, i.e. three times the image
half-width: endpoints, uniform spacing, and strict monotonicity for a
nonempty image. -/
theorem radius_grid_spacing (N : Nat) :
    radiusGrid N 0 = 1/10000
    ∧ radiusGrid N 399 = (3/2) * (N : ℚ)
    ∧ (∀ i : Nat, radiusGrid N (i + 1) - radiusGrid N i
        = ((3/2) * (N : ℚ) - 1/10000) / 399)
    ∧ (1 ≤ N → ∀ i j : Nat, i < j → radiusGrid N i < radiusGrid N j) := by
  refine ⟨?_, ?_, ?_, ?_⟩
  · simp [radiusGrid]
  · rw [radiusGrid]
    norm_num
  · intro i
    rw [radiusGrid, radiusGrid]
    push_cast
    ring
  · intro hN i j hij
    exact radiusGrid_lt_radiusGrid N hN hij

/-- C4 witness: concrete endpoints and monotonicity at `N = 4`. -/
theorem radius_grid_spacing_witness :
    radiusGrid 4 399 = 6 ∧ radiusGrid 4 2 < radiusGrid 4 3 := by
  constructor
  · have h := (radius_grid_spacing 4).2.1
    rw [h]
    norm_num
  · exact (radius_grid_spacing 4).2.2.2 (by norm_num) 2 3 (by norm_num)

/-- C3 counterexample: on a 2×2 image of constant flux 25 with the default
`sn_limit = 25`, the sky sigma the code computes,
`sqrt((total/sn)^2 / area^2)` with `area = N·N`, is 1, while the claimed
formula with `pixel_count` read as the per-axis count `N` gives 2. -/
theorem sky_sig_not_per_axis :
    Real.sqrt ((skySigSq (Mat.mk 2 2 (fun _ _ => 25)) 25 : ℚ) : ℝ)
      ≠ Real.sqrt ((skySigClaimedSq (Mat.mk 2 2 (fun _ _ => 25)) 25 : ℚ) : ℝ) := by
  have ht : (Mat.mk 2 2 (fun _ _ => 25)).total = 100 := by
    norm_num [Mat.total, Finset.sum_range_succ]
  have h1 : skySigSq (Mat.mk 2 2 (fun _ _ => 25)) 25 = 1 := by
    rw [skySigSq, ht]
    norm_num
  have h2 : skySigClaimedSq (Mat.mk 2 2 (fun _ _ => 25)) 25 = 4 := by
    rw [skySigClaimedSq, ht]
    norm_num
  rw [h1, h2]
  rw [show (((1:ℚ)) : ℝ) = 1 by norm_num, show (((4:ℚ)) : ℝ) = 4 by norm_num]
  rw [Real.sqrt_one, show (4:ℝ) = 2^2 by norm_num,
    Real.sqrt_sq (by norm_num : (0:ℝ) ≤ 2)]
  norm_num

/-- C3 (amended): when no explicit sigma is supplied the noise injector
uses `sky_sigma = sqrt((total_flux/sn_limit)^2 / area^2)` where
`area = N·N` is the total pixel count of the `N×N` image (so the sigma is
`|total_flux/sn_limit| / N^2`), with `sn_limit` defaulting to 25. -/
theorem sky_sig_area_formula (img : Mat) (sn : ℚ) (h : 0 < img.rows) :
    Real.sqrt ((skySigSq img sn : ℚ) : ℝ)
      = |((img.total : ℚ) : ℝ) / ((sn : ℚ) : ℝ)| / ((img.rows : ℝ)) ^ 2 := by
  have hN : (0:ℝ) < (img.rows : ℝ) := by exact_mod_cast h
  rw [skySigSq]
  push_cast
  rw [← div_pow, Real.sqrt_sq_eq_abs, abs_div,
    abs_of_pos (by positivity : (0:ℝ) < (img.rows : ℝ) * (img.rows : ℝ))]
  ring

/-- C3 witness: the 2×2 constant-25 image at the default `sn_limit = 25`
has sky sigma exactly 1. -/
theorem sky_sig_area_formula_witness :
    Real.sqrt ((skySigSq (Mat.mk 2 2 (fun _ _ => 25)) 25 : ℚ) : ℝ) = 1 := by
  have h := sky_sig_area_formula (Mat.mk 2 2 (fun _ _ => 25)) 25 (by norm_num)
  rw [h]
  have ht : (Mat.mk 2 2 (fun _ _ => 25)).total = 100 := by
    norm_num [Mat.total, Finset.sum_range_succ]
  rw [ht]
  norm_num

/-- C9: resampling a 2D array to its own shape via `congrid` reproduces the
original values exactly (hence certainly within floating-point tolerance)
at every in-bounds point. -/
theorem congrid_identity_same_shape (a : Mat) (hr : 2 ≤ a.rows) (hc : 2 ≤ a.cols)
    (i j : Nat) (hi : i < a.rows) (hj : j < a.cols) :
    (congridAt a a.rows a.cols).entry i j = a.entry i j := by
  have hr0 : ((a.rows : ℕ) : ℚ) ≠ 0 := Nat.cast_ne_zero.mpr (by omega)
  have hc0 : ((a.cols : ℕ) : ℚ) ≠ 0 := Nat.cast_ne_zero.mpr (by omega)
  have e1 : (congridAt a a.rows a.cols).entry i j
      = interpLin a.rows
          (fun r => interpLin a.cols (fun c => a.entry r c)
            ((a.cols : ℚ) / (a.cols : ℚ) * (j : ℚ)))
          ((a.rows : ℚ) / (a.rows : ℚ) * (i : ℚ)) := rfl
  rw [e1, div_self hc0, div_self hr0, one_mul, one_mul]
  rw [interpLin_nat a.rows _ i hi]
  exact interpLin_nat a.cols _ j hj

/-- C9 witness: identity resampling of a concrete 2×2 array at an interior
point, via the theorem. -/
theorem congrid_identity_same_shape_witness :
    (congridAt (Mat.mk 2 2 (fun i j => (i : ℚ) + 2 * (j : ℚ))) 2 2).entry 0 1
      = (Mat.mk 2 2 (fun i j => (i : ℚ) + 2 * (j : ℚ))).entry 0 1 :=
  congrid_identity_same_shape (Mat.mk 2 2 (fun i j => (i : ℚ) + 2 * (j : ℚ)))
    (by norm_num) (by norm_num) 0 1 (by norm_num) (by norm_num)

lemma argmin400_lt (f : Nat → ℚ) : argminIdx f 400 < 400 :=
  argminIdx_lt f 399

lemma argmin400_min (f : Nat → ℚ) (k : Nat) (hk : k < 400) :
    f (argminIdx f 400) ≤ f k :=
  argminIdx_min f 399 k hk

lemma argmin400_first (f : Nat → ℚ) (k : Nat) (hk : k < argminIdx f 400) :
    f (argminIdx f 400) < f k :=
  argminIdx_first f 399 k hk

/-- C5: the Petrosian radius computed by `calc_r_petro` (no external
radius, resizing enabled) is the RadiusGrid value whose Petrosian ratio
has the minimum absolute distance to 0.2 over the entire grid; because the
scan runs over the flipped array (largest radius first) and `np.argmin`
keeps the first minimum, any grid radius tying that minimum distance is no
larger than the one returned. -/
theorem calc_r_petro_closest_largest (img : Mat) (hN : 1 ≤ img.rows) :
    calcRPetroPixels img = radiusGrid img.rows (calcRPetroSelIdx img)
    ∧ calcRPetroSelIdx img ≤ 399
    ∧ (∀ k : Nat, k ≤ 399 →
        |petroVals img (calcRPetroSelIdx img) - 1/5| ≤ |petroVals img k - 1/5|)
    ∧ (∀ k : Nat, k ≤ 399 →
        |petroVals img k - 1/5| = |petroVals img (calcRPetroSelIdx img) - 1/5| →
        radiusGrid img.rows k ≤ calcRPetroPixels img) := by
  have hisel : calcRPetroSelIdx img
      = 399 - argminIdx (fun i => |petroVals img (399 - i) - 1/5|) 400 := rfl
  have hP : argminIdx (fun i => |petroVals img (399 - i) - 1/5|) 400 < 400 :=
    argmin400_lt _
  refine ⟨rfl, by omega, ?_, ?_⟩
  · intro k hk
    have hmin := argmin400_min (fun i => |petroVals img (399 - i) - 1/5|)
      (399 - k) (by omega)
    simp only [Nat.sub_sub_self hk] at hmin
    exact hmin
  · intro k hk he
    have hkle : k ≤ calcRPetroSelIdx img := by
      by_contra hlt
      push_neg at hlt
      have h1 : 399 - k
          < argminIdx (fun i => |petroVals img (399 - i) - 1/5|) 400 := by
        omega
      have hfirst := argmin400_first (fun i => |petroVals img (399 - i) - 1/5|)
        (399 - k) h1
      simp only [Nat.sub_sub_self hk] at hfirst
      rw [hisel] at he
      rw [← he] at hfirst
      exact lt_irrefl _ hfirst
    exact radiusGrid_le_radiusGrid img.rows hN hkle

/-- C5 witness: on a concrete 1×1 image the returned radius attains the
minimal ratio distance (instantiated at grid index 0). -/
theorem calc_r_petro_closest_largest_witness :
    |petroVals (Mat.mk 1 1 (fun _ _ => 0))
        (calcRPetroSelIdx (Mat.mk 1 1 (fun _ _ => 0))) - 1/5|
      ≤ |petroVals (Mat.mk 1 1 (fun _ _ => 0)) 0 - 1/5| :=
  (calc_r_petro_closest_largest (Mat.mk 1 1 (fun _ _ => 0))
    (by norm_num)).2.2.1 0 (by norm_num)

/-- C6: in `add_gaussian_psf`, when the initial
`sigma_pixels = psf_fwhm_arcsec / 2.355 / pixel_in_arcsec` is below 8, the
working image is regridded to `floor(N * 8 / sigma_pixels)` pixels per
axis; if that floor exceeds 2500 the working dimension is capped at
exactly 2500 and the effective blur sigma handed to the gaussian filter
works out to `2500 * sigma_pixels / N`. -/
theorem add_gaussian_psf_upsample_policy (img : Mat) (fwhm pix : ℚ)
    (hf : 0 < fwhm) (hp : 0 < pix) (hN : 0 < img.rows)
    (hc : fwhm * (1 / (471/200)) / pix < 8) :
    (⌊(img.rows : ℚ) * 8 / (fwhm * (1 / (471/200)) / pix)⌋ ≤ 2500 →
      (addGaussianPsfPre true img fwhm pix).1.rows
          = (⌊(img.rows : ℚ) * 8 / (fwhm * (1 / (471/200)) / pix)⌋).toNat
        ∧ (addGaussianPsfPre true img fwhm pix).1.cols
          = (⌊(img.rows : ℚ) * 8 / (fwhm * (1 / (471/200)) / pix)⌋).toNat)
    ∧ (2500 < ⌊(img.rows : ℚ) * 8 / (fwhm * (1 / (471/200)) / pix)⌋ →
      (addGaussianPsfPre true img fwhm pix).1.rows = 2500
        ∧ (addGaussianPsfPre true img fwhm pix).1.cols = 2500
        ∧ (addGaussianPsfPre true img fwhm pix).2
            = 2500 * (fwhm * (1 / (471/200)) / pix) / (img.rows : ℚ)) := by
  have hc0 : fwhm * (1 / (471/200)) / pix ≠ 0 :=
    ne_of_gt (div_pos (mul_pos hf (by norm_num)) hp)
  have hN0 : ((img.rows : ℕ) : ℚ) ≠ 0 := Nat.cast_ne_zero.mpr (by omega)
  constructor
  · intro hm
    rw [addGaussianPsfPre, if_pos rfl, if_pos hc, if_neg (not_lt.mpr hm)]
    exact ⟨rfl, rfl⟩
  · intro hm
    rw [addGaussianPsfPre, if_pos rfl, if_pos hc, if_pos hm]
    refine ⟨rfl, rfl, ?_⟩
    field_simp
    ring

/-- C6 witness: a 256-pixel image with FWHM 1 arcsec and pixel scale 0.24
arcsec has `sigma_pixels ≈ 1.77 < 8` and is upsampled to
`floor(256·8/sigma) = 1157` pixels per axis. -/
theorem add_gaussian_psf_upsample_policy_witness :
    (addGaussianPsfPre true (Mat.mk 256 256 (fun _ _ => 0)) 1 (6/25)).1.rows = 1157 := by
  have h := (add_gaussian_psf_upsample_policy (Mat.mk 256 256 (fun _ _ => 0)) 1 (6/25)
      (by norm_num) (by norm_num) (by norm_num) (by norm_num)).1 (by norm_num)
  rw [h.1]
  norm_num
  rfl

/-- C7: with size normalization enabled, `resize_image_from_rp` always
returns a 424×424 plane; writing `n` for the resampled pixel count
`int((pixel_in_kpc / (0.008·r_petro_kpc)) · N)`, an `n ≤ 424` image is
placed on a zero canvas with leading-edge offset `(424 - n) / 2`
(floor division) on both axes, and an `n > 424` image is center-cropped
with leading-edge offset `(n - 424) / 2`. -/
theorem resize_image_from_rp_canvas (img : Mat) (p r : ℚ) (n : Nat)
    (hn : n = (pyInt (p / ((1/125) * r) * (img.rows : ℚ))).toNat) :
    (resizeImageFromRp true img p r).rows = 424
    ∧ (resizeImageFromRp true img p r).cols = 424
    ∧ (n ≤ 424 → ∀ i j : Nat,
        (resizeImageFromRp true img p r).entry i j =
          if (424 - n) / 2 ≤ i ∧ i < (424 - n) / 2 + n ∧
             (424 - n) / 2 ≤ j ∧ j < (424 - n) / 2 + n then
            (congridAt img n n).entry (i - (424 - n) / 2) (j - (424 - n) / 2)
          else 0)
    ∧ (424 < n → ∀ i j : Nat,
        (resizeImageFromRp true img p r).entry i j =
          (congridAt img n n).entry ((n - 424) / 2 + i) ((n - 424) / 2 + j)) := by
  by_cases hd : (0:ℤ) ≤ (424:ℤ) - (n : ℤ)
  · have hs : (⌊((424:ℚ) - (n : ℚ)) / 2⌋).toNat = (424 - n) / 2 := by
      have h1 : ((424:ℚ) - (n : ℚ)) = (((424 - (n : ℤ)) : ℤ) : ℚ) := by
        push_cast
        ring
      rw [h1, floorHalf_toNat _ hd]
      omega
    have e : resizeImageFromRp true img p r
        = Mat.mk 424 424 (fun i j =>
            if (424 - n) / 2 ≤ i ∧ i < (424 - n) / 2 + n ∧
               (424 - n) / 2 ≤ j ∧ j < (424 - n) / 2 + n then
              (congridAt img n n).entry (i - (424 - n) / 2) (j - (424 - n) / 2)
            else 0) := by
      simp only [resizeImageFromRp, reduceIte]
      rw [← hn, if_pos hd]
      push_cast
      rw [hs]
    refine ⟨by rw [e], by rw [e], ?_, ?_⟩
    · intro _ i j
      rw [e]
    · intro hgt _ _
      omega
  · have hgt : 424 < n := by omega
    have hs : (⌊(-((424:ℚ) - (n : ℚ))) / 2⌋).toNat = (n - 424) / 2 := by
      have h2 : -((424:ℚ) - (n : ℚ)) = ((((n : ℤ) - 424) : ℤ) : ℚ) := by
        push_cast
        ring
      rw [h2, floorHalf_toNat _ (by omega)]
      omega
    have e : resizeImageFromRp true img p r
        = Mat.mk 424 424 (fun i j =>
            (congridAt img n n).entry ((n - 424) / 2 + i) ((n - 424) / 2 + j)) := by
      simp only [resizeImageFromRp, reduceIte]
      rw [← hn, if_neg hd]
      push_cast
      rw [hs]
    refine ⟨by rw [e], by rw [e], ?_, ?_⟩
    · intro hle
      omega
    · intro _ i j
      rw [e]

/-- C7 witness: a 1×1 input with scales giving a one-pixel resampled
image lands on a 424×424 canvas. -/
theorem resize_image_from_rp_canvas_witness :
    (resizeImageFromRp true (Mat.mk 1 1 (fun _ _ => 7)) 1 125).rows = 424 :=
  (resize_image_from_rp_canvas (Mat.mk 1 1 (fun _ _ => 7)) 1 125 1
    (by norm_num [pyInt])).1
